import Mathlib

/-!
Shallow embedding of the buffer crypto primitives of the `issp` teaching
repository (files `src/low_level/exercises/solutions/02_stream.c` and
`src/low_level/c_exercises/solutions/00_otp.c`): djb2 hash, xorshift
pseudorandom generator, stream cipher, cyclic XOR cipher and MAC.

Byte buffers are modelled as `List Nat` (each element a byte value);
`uint64_t` arithmetic is modelled as `Nat` arithmetic with explicit
reduction modulo `2 ^ 64`.
-/

namespace Issp

/-- The modulus of C `uint64_t` arithmetic. -/
def U64 : Nat := 2 ^ 64

/-- Translated from `prng` in `02_stream.c`:
```
uint64_t prng(uint64_t *state) {
    uint64_t x = *state;
    x ^= x << 13;
    x ^= x >> 7;
    x ^= x << 17;
    return *state = x;
}
```
The first component is the returned value, the second the updated state;
`return *state = x` makes them the same value `x`. Every C assignment to
the `uint64_t` variable is reduced modulo `2 ^ 64`. -/
def prng (state : Nat) : Nat × Nat :=
  let x := state
  let x := (x ^^^ (x <<< 13)) % U64
  let x := (x ^^^ (x >>> 7)) % U64
  let x := (x ^^^ (x <<< 17)) % U64
  (x, x)

/-- The state transition of `prng` alone (output and next state coincide). -/
def prngNext (s : Nat) : Nat := (prng s).2

/-- Iterate the generator `n` times from state `s`. -/
def prngIterN : Nat → Nat → Nat
  | 0, s => s
  | n + 1, s => prngIterN n (prngNext s)

/-- The list of the first `n` generator outputs drawn from state `s`. -/
def draws : Nat → Nat → List Nat
  | 0, _ => []
  | n + 1, s => (prng s).1 :: draws n (prng s).2

/-- Translated from `hash` in `02_stream.c` (djb2):
```
uint64_t hash = 5381;
for (size_t i = 0; i < buf->size; i++)
    hash = (hash << 5U) + hash + buf->data[i];
```
with `uint64_t` wraparound on each step. -/
def hash (buf : List Nat) : Nat :=
  buf.foldl (fun h b => ((h <<< 5) % U64 + h + b) % U64) 5381

/-- The djb2 recurrence as the spec states it (§4.2):
`h0 = 5381`, `h_i = (h_(i-1) * 33 + byte) mod 2^64`. -/
def hashSpec (buf : List Nat) : Nat :=
  buf.foldl (fun h b => (h * 33 + b) % U64) 5381

/-- The zero-state fallback in `crypt`: `if (!state) state = 0xFFFFFFFF;`. -/
def fallbackState (s : Nat) : Nat := if s = 0 then 0xFFFFFFFF else s

/-- The loop of `crypt`: starting from generator state `s`, XOR each data
byte with the low 8 bits of the next generator output
(`uint8_t key_byte = prng(&state) & 0xFF; buf->data[i] ^= key_byte;`). -/
def cryptFrom : Nat → List Nat → List Nat
  | _, [] => []
  | s, d :: rest => (d ^^^ ((prng s).1 % 256)) :: cryptFrom (prng s).2 rest

/-- Translated from `crypt` in `02_stream.c`: seed the generator with the
hash of the key, apply the zero-state fallback, then XOR the keystream
bytes into the buffer. -/
def crypt (buf key : List Nat) : List Nat :=
  cryptFrom (fallbackState (hash key)) buf

/-- The loop of `xor_crypt` starting at index `i`: byte at position `i`
is XORed with `key[i % key.size]`. -/
def xorCryptFrom (key : List Nat) : Nat → List Nat → List Nat
  | _, [] => []
  | i, d :: rest => (d ^^^ key.getD (i % key.length) 0) :: xorCryptFrom key (i + 1) rest

/-- Translated from `xor_crypt` in `00_otp.c` / `02_stream.c`:
```
for (size_t i = 0; i < buf->size; i++)
    buf->data[i] ^= key->data[i % key->size];
```
(total model; the Lean convention `i % 0 = i` and out-of-range
`getD _ 0` only matter for an empty key, the case modelled separately
by `xorCryptC`). -/
def xor_crypt (buf key : List Nat) : List Nat := xorCryptFrom key 0 buf

/-- C modulo as a fallible operation: `a % 0` is undefined behavior in C,
modelled as `none`. -/
def cMod (a b : Nat) : Option Nat := if b = 0 then none else some (a % b)

/-- The loop of `xor_crypt` with C semantics for `%`: reaching
`i % key->size` with a zero divisor makes the execution undefined. -/
def xorCryptFromC (key : List Nat) : Nat → List Nat → Option (List Nat)
  | _, [] => some []
  | i, d :: rest => do
      let j ← cMod i key.length
      let tail ← xorCryptFromC key (i + 1) rest
      pure ((d ^^^ key.getD j 0) :: tail)

/-- `xor_crypt` under C semantics: `none` exactly when the execution runs
into the undefined `i % 0`. -/
def xorCryptC (buf key : List Nat) : Option (List Nat) := xorCryptFromC key 0 buf

/-- The 8 bytes of a `uint64_t` value in memory order on a little-endian
platform, modelling `struct Buffer hash_buf = { sizeof(mac), (uint8_t *)&mac }`. -/
def u64ToBytes (v : Nat) : List Nat :=
  (List.range 8).map fun i => (v >>> (8 * i)) % 256

/-- Reassemble a `uint64_t` from its little-endian byte buffer. -/
def bytesToU64 (bs : List Nat) : Nat :=
  bs.foldr (fun b acc => b + 256 * acc) 0

/-- Translated from `compute_mac` in `02_stream.c`: hash the data, view the
hash value as an 8-byte buffer, XOR-encrypt it with the key, and read the
result back as a 64-bit integer. -/
def compute_mac (data key : List Nat) : Nat :=
  bytesToU64 (xor_crypt (u64ToBytes (hash data)) key)

/-- Translated from `verify_mac` in `02_stream.c`:
`return compute_mac(data, key) == mac;`. -/
def verify_mac (data key : List Nat) (mac : Nat) : Bool :=
  compute_mac data key == mac

/-- The xorshift step as the spec states it (§4.3), with the shifts spelled
out as multiplication and division by powers of two: left-shift-13 XOR,
right-shift-7 XOR, left-shift-17 XOR, in that fixed order, every step
reduced modulo `2 ^ 64`. -/
def prngSpec (s : Nat) : Nat :=
  let a := (s ^^^ (s * 2 ^ 13)) % U64
  let b := (a ^^^ (a / 2 ^ 7)) % U64
  (b ^^^ (b * 2 ^ 17)) % U64

/-- The ASCII bytes of `"This message should be authenticated"`, the
literal message of the MAC exercise's `main`, without the NUL
terminator. -/
def macMessage : List Nat :=
  [84, 104, 105, 115, 32, 109, 101, 115, 115, 97, 103, 101, 32, 115, 104,
   111, 117, 108, 100, 32, 98, 101, 32, 97, 117, 116, 104, 101, 110, 116,
   105, 99, 97, 116, 101, 100]

/-- The literal message after `message[0] = 't';` (the byte `84` for `T`
replaced by `116` for `t`). -/
def macMessageTampered : List Nat :=
  [116, 104, 105, 115, 32, 109, 101, 115, 115, 97, 103, 101, 32, 115, 104,
   111, 117, 108, 100, 32, 98, 101, 32, 97, 117, 116, 104, 101, 110, 116,
   105, 99, 97, 116, 101, 100]

/-- The ASCII bytes of `"s3cr3t_p4ssw0rd"`, the literal key of the MAC
exercise's `main`, without the NUL terminator. -/
def macKey : List Nat :=
  [115, 51, 99, 114, 51, 116, 95, 112, 52, 115, 115, 119, 48, 114, 100]

/-! ### Helper lemmas -/

theorem hash_step_eq (h b : Nat) :
    ((h <<< 5) % U64 + h + b) % U64 = (h * 33 + b) % U64 := by
  rw [Nat.shiftLeft_eq, Nat.add_assoc, Nat.mod_add_mod]
  congr 1
  ring

theorem xorCryptFrom_involution (key : List Nat) :
    ∀ (i : Nat) (buf : List Nat),
      xorCryptFrom key i (xorCryptFrom key i buf) = buf := by
  intro i buf
  induction buf generalizing i with
  | nil => rfl
  | cons d rest ih => simp [xorCryptFrom, Nat.xor_cancel_right, ih]

theorem cryptFrom_involution :
    ∀ (s : Nat) (buf : List Nat), cryptFrom s (cryptFrom s buf) = buf := by
  intro s buf
  induction buf generalizing s with
  | nil => rfl
  | cons d rest ih => simp [cryptFrom, Nat.xor_cancel_right, ih]

theorem xorCryptFrom_length (key : List Nat) :
    ∀ (i : Nat) (buf : List Nat),
      (xorCryptFrom key i buf).length = buf.length := by
  intro i buf
  induction buf generalizing i with
  | nil => rfl
  | cons d rest ih => simp [xorCryptFrom, ih]

theorem cryptFrom_length :
    ∀ (s : Nat) (buf : List Nat), (cryptFrom s buf).length = buf.length := by
  intro s buf
  induction buf generalizing s with
  | nil => rfl
  | cons d rest ih => simp [cryptFrom, ih]

/-! ### Claim theorems -/

/-- C4: for every byte buffer, `hash` equals the djb2 recurrence
`h0 = 5381`, `h_i = h_(i-1) * 33 + byte` computed modulo `2 ^ 64` (the
`(h << 5) + h` form equals `h * 33`), and the hash of the empty buffer
is `5381`. -/
theorem hash_is_djb2 (buf : List Nat) :
    hash buf = hashSpec buf ∧ hash [] = 5381 := by
  constructor
  · have hfun : (fun h b => ((h <<< 5) % U64 + h + b) % U64)
        = (fun h b => (h * 33 + b) % U64) := by
      funext h b
      exact hash_step_eq h b
    simp [hash, hashSpec, hfun]
  · rfl

/-- C3: applying the cyclic XOR cipher twice with the same nonzero-length
key restores the data buffer exactly. -/
theorem xor_crypt_involution (buf key : List Nat) (hk : key.length ≠ 0) :
    xor_crypt (xor_crypt buf key) key = buf :=
  xorCryptFrom_involution key 0 buf

/-- Witness for C3 at a concrete buffer and key. -/
theorem xor_crypt_involution_witness :
    ([9, 9] : List Nat).length ≠ 0 ∧
      xor_crypt (xor_crypt [1, 2, 3, 4, 5] [9, 9]) [9, 9] = [1, 2, 3, 4, 5] :=
  ⟨by decide, xor_crypt_involution [1, 2, 3, 4, 5] [9, 9] (by decide)⟩

/-- C1: applying the stream cipher twice with the same nonempty key
restores the data buffer exactly, because the generator is re-seeded
identically from the hash of the key both times. -/
theorem crypt_involution (buf key : List Nat) (hk : key ≠ []) :
    crypt (crypt buf key) key = buf :=
  cryptFrom_involution (fallbackState (hash key)) buf

/-- Witness for C1 at a concrete buffer and key. -/
theorem crypt_involution_witness :
    ([107] : List Nat) ≠ [] ∧
      crypt (crypt [1, 2, 3] [107]) [107] = [1, 2, 3] :=
  ⟨by decide, crypt_involution [1, 2, 3] [107] (by decide)⟩

/-- C2: verifying a MAC that was just computed over the same data and key
succeeds: `verify_mac` recomputes the MAC via `compute_mac` and compares
it with the claimed value. -/
theorem verify_mac_of_compute_mac (data key : List Nat) (hk : 1 ≤ key.length) :
    verify_mac data key (compute_mac data key) = true := by
  simp [verify_mac]

/-- Witness for C2 at a concrete message and key. -/
theorem verify_mac_of_compute_mac_witness :
    1 ≤ ([7, 8] : List Nat).length ∧
      verify_mac [1, 2, 3] [7, 8] (compute_mac [1, 2, 3] [7, 8]) = true :=
  ⟨by decide, verify_mac_of_compute_mac [1, 2, 3] [7, 8] (by decide)⟩

/-- C9: neither the cyclic XOR cipher nor the stream cipher changes the
length of the buffer it transforms. -/
theorem crypt_length_preserved (buf key : List Nat) :
    (xor_crypt buf key).length = buf.length ∧
      (crypt buf key).length = buf.length :=
  ⟨xorCryptFrom_length key 0 buf, cryptFrom_length (fallbackState (hash key)) buf⟩

/-- C7: one `prng` call applies the three xorshift steps (left-shift-13
XOR, right-shift-7 XOR, left-shift-17 XOR, in that order, modulo
`2 ^ 64`), and both the returned value and the new state equal the
result of that transform. -/
theorem prng_step_def (s : Nat) : prng s = (prngSpec s, prngSpec s) := by
  simp [prng, prngSpec, Nat.shiftLeft_eq, Nat.shiftRight_eq_div_pow]

set_option maxRecDepth 100000 in
/-- C5: on the literal message and key of the MAC exercise, `compute_mac`
yields the deterministic value `0x48BAE3B918FF90A8`; verifying that value
succeeds, and after replacing the leading `T` by `t` it fails. -/
theorem mac_concrete_scenario :
    compute_mac macMessage macKey = 5240751500526850216 ∧
      verify_mac macMessage macKey 5240751500526850216 = true ∧
      verify_mac macMessageTampered macKey 5240751500526850216 = false := by
  refine ⟨by decide, by decide, by decide⟩

/-- C6: a zero generator seed is replaced by the fixed fallback constant
`0xFFFFFFFF` before the first draw; the fallback is nonzero, is not a
xorshift fixed point, and neither the first 1000 generator outputs nor
the keystream bytes they induce form an all-zero sequence. -/
theorem zero_seed_fallback (s : Nat) (hs : s = 0) :
    fallbackState s = 0xFFFFFFFF ∧ (0xFFFFFFFF : Nat) ≠ 0 ∧
      prngNext 0xFFFFFFFF ≠ 0xFFFFFFFF ∧
      ((draws 1000 (fallbackState s)).all fun x => x == 0) = false ∧
      (((draws 1000 (fallbackState s)).map fun x => x % 256).all
        fun x => x == 0) = false := by
  subst hs
  have h1 : draws 1000 (fallbackState 0)
      = 4576189113404760000 :: draws 999 4576189113404760000 := rfl
  refine ⟨rfl, by decide, by decide, ?_, ?_⟩
  · rw [h1]
    simp [List.all_cons]
  · rw [h1]
    simp [List.all_cons]

/-- Witness for C6 at the concrete zero seed. -/
theorem zero_seed_fallback_witness :
    (0 : Nat) = 0 ∧ fallbackState 0 = 0xFFFFFFFF :=
  ⟨rfl, (zero_seed_fallback 0 rfl).1⟩

/-! ### Invertibility of the xorshift steps -/

theorem xor_mod_two_pow_right {x : Nat} (n : Nat) (hx : x < 2 ^ n) (y : Nat) :
    (x ^^^ y) % 2 ^ n = x ^^^ (y % 2 ^ n) := by
  apply Nat.eq_of_testBit_eq
  intro i
  by_cases hi : i < n
  · simp [Nat.testBit_mod_two_pow, Nat.testBit_xor, hi]
  · have hin : 2 ^ n ≤ 2 ^ i := Nat.pow_le_pow_right (by norm_num) (le_of_not_lt hi)
    have hxi : x.testBit i = false := Nat.testBit_lt_two_pow (lt_of_lt_of_le hx hin)
    simp [Nat.testBit_mod_two_pow, Nat.testBit_xor, hi, hxi]

theorem shiftLeft_step_eq_zero {x k : Nat} (hx : x < 2 ^ 64) (hk : 0 < k)
    (h : (x ^^^ (x <<< k)) % 2 ^ 64 = 0) : x = 0 := by
  rw [xor_mod_two_pow_right 64 hx (x <<< k)] at h
  have hx' : x = (x <<< k) % 2 ^ 64 := Nat.xor_eq_zero.mp h
  have hbits : ∀ j i, i < k * j → x.testBit i = false := by
    intro j
    induction j with
    | zero => intro i hi; omega
    | succ j ih =>
      intro i hi
      have hbit : x.testBit i = ((x <<< k) % 2 ^ 64).testBit i := by rw [← hx']
      rw [Nat.testBit_mod_two_pow, Nat.testBit_shiftLeft] at hbit
      by_cases hik : k ≤ i
      · have hik' : i - k < k * j := by
          have hms : k * Nat.succ j = k * j + k := Nat.mul_succ k j
          have hms' : k * (j + 1) = k * j + k := by ring
          omega
        rw [ih (i - k) hik'] at hbit
        simpa using hbit
      · simpa [hik] using hbit
  have hall : ∀ i, x.testBit i = false := by
    intro i
    refine hbits (i + 1) i ?_
    calc i < i + 1 := Nat.lt_succ_self i
      _ ≤ k * (i + 1) := Nat.le_mul_of_pos_left _ hk
  exact Nat.eq_of_testBit_eq fun i => by rw [hall i, Nat.zero_testBit]

theorem shiftRight_step_eq_zero {x k : Nat} (hx : x < 2 ^ 64) (hk : 0 < k)
    (h : (x ^^^ (x >>> k)) % 2 ^ 64 = 0) : x = 0 := by
  have hsr : x >>> k < 2 ^ 64 := by
    rw [Nat.shiftRight_eq_div_pow]
    exact lt_of_le_of_lt (Nat.div_le_self _ _) hx
  rw [Nat.mod_eq_of_lt (Nat.xor_lt_two_pow hx hsr)] at h
  have hx' : x = x >>> k := Nat.xor_eq_zero.mp h
  have hbits : ∀ j i, 64 ≤ i + k * j → x.testBit i = false := by
    intro j
    induction j with
    | zero =>
      intro i hi
      have hin : 2 ^ 64 ≤ 2 ^ i := Nat.pow_le_pow_right (by norm_num) (by omega)
      exact Nat.testBit_lt_two_pow (lt_of_lt_of_le hx hin)
    | succ j ih =>
      intro i hi
      have hbit : x.testBit i = (x >>> k).testBit i := by rw [← hx']
      rw [Nat.testBit_shiftRight] at hbit
      rw [hbit]
      refine ih (k + i) ?_
      have hms : k * Nat.succ j = k * j + k := Nat.mul_succ k j
      have hms' : k * (j + 1) = k * j + k := by ring
      omega
  exact Nat.eq_of_testBit_eq fun i => by
    rw [hbits 64 i (by omega), Nat.zero_testBit]

theorem hash_lt (buf : List Nat) : hash buf < U64 := by
  have hgen : ∀ (l : List Nat) (h : Nat), h < U64 →
      l.foldl (fun h b => ((h <<< 5) % U64 + h + b) % U64) h < U64 := by
    intro l
    induction l with
    | nil => intro h hh; exact hh
    | cons b rest ih =>
      intro h hh
      exact ih _ (Nat.mod_lt _ (by norm_num [U64]))
  exact hgen buf 5381 (by norm_num [U64])

theorem fallbackState_ne_zero (s : Nat) : fallbackState s ≠ 0 := by
  unfold fallbackState
  split
  · norm_num
  · assumption

theorem fallbackState_lt {s : Nat} (hs : s < U64) : fallbackState s < U64 := by
  unfold fallbackState
  split
  · norm_num [U64]
  · exact hs

theorem prngNext_lt (s : Nat) : prngNext s < U64 :=
  Nat.mod_lt _ (by norm_num [U64])

theorem prngNext_ne_zero {s : Nat} (hs : s < U64) (h0 : s ≠ 0) :
    prngNext s ≠ 0 := by
  intro hz
  have hU : U64 = 2 ^ 64 := rfl
  have hpos : 0 < (2 : Nat) ^ 64 := by norm_num
  have hz' : ((((s ^^^ (s <<< 13)) % 2 ^ 64
        ^^^ (((s ^^^ (s <<< 13)) % 2 ^ 64) >>> 7)) % 2 ^ 64)
        ^^^ ((((s ^^^ (s <<< 13)) % 2 ^ 64
        ^^^ (((s ^^^ (s <<< 13)) % 2 ^ 64) >>> 7)) % 2 ^ 64) <<< 17)) % 2 ^ 64
        = 0 := hz
  have hb : ((s ^^^ (s <<< 13)) % 2 ^ 64
        ^^^ (((s ^^^ (s <<< 13)) % 2 ^ 64) >>> 7)) % 2 ^ 64 = 0 :=
    shiftLeft_step_eq_zero (Nat.mod_lt _ hpos) (by norm_num) hz'
  have ha : (s ^^^ (s <<< 13)) % 2 ^ 64 = 0 :=
    shiftRight_step_eq_zero (Nat.mod_lt _ hpos) (by norm_num) hb
  exact h0 (shiftLeft_step_eq_zero (hU ▸ hs) (by norm_num) ha)

theorem prngIterN_ne_zero {s : Nat} (hs : s < U64) (h0 : s ≠ 0) :
    ∀ n, prngIterN n s ≠ 0 ∧ prngIterN n s < U64 := by
  intro n
  induction n generalizing s with
  | zero => exact ⟨h0, hs⟩
  | succ n ih => exact ih (prngNext_lt s) (prngNext_ne_zero hs h0)

/-- C10: the xorshift step maps every nonzero 64-bit state to a nonzero
state (each shift-XOR step is invertible, so only zero maps to zero), and
consequently the stream cipher's generator state, seeded from the hash of
the key with the zero fallback applied, stays nonzero across every
subsequent draw. -/
theorem prng_nonzero_invariant :
    (∀ s, s < U64 → s ≠ 0 → prngNext s ≠ 0) ∧
      (∀ (key : List Nat) (n : Nat),
        prngIterN n (fallbackState (hash key)) ≠ 0) := by
  constructor
  · intro s hs h0
    exact prngNext_ne_zero hs h0
  · intro key n
    exact (prngIterN_ne_zero (fallbackState_lt (hash_lt key))
      (fallbackState_ne_zero _) n).1

/-- Witness for C10 at a concrete state, key and draw count. -/
theorem prng_nonzero_invariant_witness :
    prngNext 1 ≠ 0 ∧ prngIterN 3 (fallbackState (hash [107])) ≠ 0 :=
  ⟨prng_nonzero_invariant.1 1 (by norm_num [U64]) (by norm_num),
    prng_nonzero_invariant.2 [107] 3⟩

/-- C8 evidence: with a zero-length key, `xor_crypt` reaches the undefined
`i % 0` on the very first byte (no explicit rejection precedes it), while
the stream cipher `crypt` silently proceeds and transforms the buffer
instead of rejecting the call. -/
theorem zero_length_key_not_rejected :
    xorCryptC [84] [] = none ∧ crypt [84] [] = [59] := by
  refine ⟨rfl, by decide⟩

end Issp
